import Mathlib

set_option maxHeartbeats 1000000

namespace TextToEmojis

/-- Classification of the messages returned by `validateText`.  Each
constructor mirrors one entry of the source's `ERROR_MESSAGES` table; the
two parameterised messages carry the characters interpolated into the
message text. -/
inductive ErrMsg where
  | emptyText
  | tooManyCharsTotal
  | invalidChar
  | tooManyChars
  | singleCharLimit (char : String)
  | notEnoughGuilds (chars : String)
  deriving DecidableEq

/-- The source's `EMOJI_TEXT_MAPPING` object: the permitted uppercase
characters and the symbolic emoji name each one maps to.  Characters
outside the table map to `none` (JS: an `undefined` lookup). -/
def EMOJI_TEXT_MAPPING : Char → Option String
  | 'A' => some "A_"
  | 'B' => some "B_"
  | 'C' => some "C_"
  | 'D' => some "D_"
  | 'E' => some "E_"
  | 'F' => some "F_"
  | 'G' => some "G_"
  | 'H' => some "H_"
  | 'I' => some "I_"
  | 'J' => some "J_"
  | 'K' => some "K_"
  | 'L' => some "L_"
  | 'M' => some "M_"
  | 'N' => some "N_"
  | 'O' => some "O_"
  | 'P' => some "P_"
  | 'Q' => some "Q_"
  | 'R' => some "R_"
  | 'S' => some "S_"
  | 'T' => some "T_"
  | 'U' => some "U_"
  | 'V' => some "V_"
  | 'W' => some "W_"
  | 'X' => some "X_"
  | 'Y' => some "Y_"
  | 'Z' => some "Z_"
  | ' ' => some "Empty_Space_Nothing_Tab"
  | '?' => some "QuestionMark"
  | '!' => some "ExclamationMark"
  | '#' => some "Hashtag"
  | '/' => some "Slash"
  | '@' => some "AtSign"
  | '$' => some "DollarSign"
  | ',' => some "Comma"
  | '.' => some "Dot"
  | ':' => some "Colon"
  | ')' => some "RightParentheses"
  | '(' => some "LeftParentheses"
  | '_' => some "Underscore"
  | '*' => some "Asterisk"
  | '1' => some "Number1One"
  | '2' => some "Number2Two"
  | '3' => some "Number3Three"
  | '4' => some "Number4Four"
  | '5' => some "Number5Five"
  | '6' => some "Number6Six"
  | '7' => some "Number7Seven"
  | '8' => some "Number8Eight"
  | '9' => some "Number9Nine"
  | '0' => some "Number0Zero"
  | _ => none

/-- The source's `GUILD_IDS` object: registry priority (1..6) paired with
the external space identifier. -/
def GUILD_IDS : List (Nat × String) :=
  [(1, "1339215110685724742"),
   (2, "1339264485386621078"),
   (3, "1339265921113391226"),
   (4, "1339267572931100764"),
   (5, "1339268634325024800"),
   (6, "1339272089621889195")]

/-- An emoji record as returned by the catalog service: symbolic name and
external id. -/
structure Emoji where
  name : String
  id : String
  deriving DecidableEq

/-- A guild (space) the user belongs to, together with its emoji catalog,
as assembled by `getUserGuilds`. -/
structure Guild where
  id : String
  emojis : List Emoji
  deriving DecidableEq

/-- One step of the source's `countCharacters` loop: increment the count
of an existing key, or append a fresh key with count 1.  In the source the
branch tests JS truthiness of `charCount[char]`; since every stored count
is at least 1, that test coincides with key presence, which is what the
`any` below checks. -/
def bump (m : List (Char × Nat)) (c : Char) : List (Char × Nat) :=
  if m.any (fun p => p.1 == c) then
    m.map (fun p => if p.1 == c then (p.1, p.2 + 1) else p)
  else
    m ++ [(c, 1)]

/-- The source's `countCharacters`: an occurrence-count table keyed by
character, with keys in order of first occurrence (JS object insertion
order). -/
def countCharacters (s : List Char) : List (Char × Nat) :=
  s.foldl bump []

/-- The distinct characters of a list in order of first occurrence; this
is the key sequence `countCharacters` produces. -/
def dedupFirst (s : List Char) : List Char :=
  s.foldl (fun acc c => if c ∈ acc then acc else acc ++ [c]) []

/-- The ten ASCII digit characters in ascending order. -/
def digitChars : List Char :=
  ['0', '1', '2', '3', '4', '5', '6', '7', '8', '9']

/-- Enumeration order of `Object.entries` over the count table.
ECMAScript enumerates own properties with array-index keys first in
ascending numeric order and the remaining string keys in insertion order;
among the single-character keys used here, the array-index-like keys are
exactly the ten digits. -/
def entriesOrder (m : List (Char × Nat)) : List (Char × Nat) :=
  digitChars.filterMap (fun d => m.find? (fun p => p.1 == d)) ++
    m.filter (fun p => !(digitChars.contains p.1))

/-- The source's `Math.max(...Object.values(charCount))`.  At its use site
the table is never empty and every count is positive, so folding from 0
agrees with the JS spread form. -/
def maxCount (counts : List (Char × Nat)) : Nat :=
  (counts.map Prod.snd).foldl Nat.max 0

/-- The source's `charsExceeding.join(", ")` over single-character keys. -/
def joinComma (cs : List Char) : String :=
  String.intercalate ", " (cs.map (fun c => String.mk [c]))

/-- The source's `charsExceeding` constant: the keys of the count table,
in `Object.entries` order, whose count exceeds the guild count. -/
def charsExceeding (charCount : List (Char × Nat)) (guildCount : Nat) : List Char :=
  ((entriesOrder charCount).filter (fun p => p.2 > guildCount)).map Prod.fst

/-- The source's `validateText(input)` with the surrounding component's
`guilds.length` passed explicitly.  Strings are modelled as lists of
characters (code points) and `toUpperCase` as per-character
`Char.toUpper`, which agrees with JS on the permitted alphabet; the
whitespace-only test models `!input.trim()`. -/
def validateText (input : List Char) (guildCount : Nat) : Option ErrMsg :=
  if input.all Char.isWhitespace then
    some .emptyText
  else if input.length > 20 then
    some .tooManyCharsTotal
  else if input.any (fun c => !(EMOJI_TEXT_MAPPING c.toUpper).isSome && c.toUpper != ' ') then
    some .invalidChar
  else if maxCount (countCharacters (input.map Char.toUpper)) > 6 then
    some .tooManyChars
  else if maxCount (countCharacters (input.map Char.toUpper)) > guildCount then
    match charsExceeding (countCharacters (input.map Char.toUpper)) guildCount with
    | [c] => some (.singleCharLimit (String.mk [c]))
    | cs => some (.notEnoughGuilds (joinComma cs))
  else
    none

/-- The registry priority of a space identifier: the `GUILD_IDS` key whose
value matches, or 999 when absent (the source's `parseInt(indexA || "999")`
fallback in the sort comparator). -/
def registryIndex (id : String) : Nat :=
  match GUILD_IDS.find? (fun p => p.2 == id) with
  | some p => p.1
  | none => 999

/-- Stable insertion of a guild behind every guild of smaller or equal
registry priority. -/
def insertByRegistry (g : Guild) : List Guild → List Guild
  | [] => [g]
  | h :: t =>
    if registryIndex h.id ≤ registryIndex g.id then h :: insertByRegistry g t
    else g :: h :: t

/-- The source's `[...guilds].sort((a, b) => indexA - indexB)`: a stable
sort by registry priority (JS `Array.prototype.sort` is stable), modelled
as insertion sort. -/
def sortGuilds (gs : List Guild) : List Guild :=
  gs.foldl (fun acc g => insertByRegistry g acc) []

/-- One iteration of the `processText` planning loop, as a trace record:
the character handled, the index chosen inside `sortedGuilds`, and the
reaction issued for it (target guild id and emoji) when the emoji lookup
succeeded — `none` models the source's `else` branch that only logs a
warning. -/
structure Step where
  char : Char
  guildIndex : Nat
  reaction : Option (String × Emoji)
  deriving DecidableEq

/-- The `processText` loop over the uppercased text: per-character usage
counters (the source's `charUsageCount` object, modelled as a function),
clamped indexing into the priority-sorted guild list, and emoji lookup by
symbolic name.  When the guild list is empty the source throws a
`TypeError` on the first character and the run aborts with no reactions;
the model is only used, and every theorem about it is stated, for
non-empty guild lists, where `guilds.get?` always succeeds. -/
def planSteps : List Char → (Char → Nat) → List Guild → List Step
  | [], _, _ => []
  | c :: rest, usage, guilds =>
    { char := c,
      guildIndex := min (usage c) (guilds.length - 1),
      reaction :=
        match guilds.get? (min (usage c) (guilds.length - 1)), EMOJI_TEXT_MAPPING c with
        | some g, some nm => (g.emojis.find? (fun e => e.name == nm)).map (fun e => (g.id, e))
        | _, _ => none } ::
      planSteps rest (fun d => if d = c then usage c + 1 else usage d) guilds

/-- A reaction directive actually dispatched: source character, target
guild, and the emoji whose `name:id` reference is sent to the reaction
endpoint. -/
structure Directive where
  char : Char
  guildId : String
  emoji : Emoji
  deriving DecidableEq

/-- The ordered list of reaction directives the `processText` loop
dispatches: one per loop step whose emoji lookup succeeded. -/
def planDirectives (upperText : List Char) (sortedGuilds : List Guild) : List Directive :=
  (planSteps upperText (fun _ => 0) sortedGuilds).filterMap
    (fun s => s.reaction.map (fun r => { char := s.char, guildId := r.1, emoji := r.2 }))

/-- The source's `processText` up to the point where reactions are issued:
uppercase the text, validate it against the number of joined guilds, and
on success plan the directive list over the priority-sorted guild list.
A validation failure only flashes the message (no directives). -/
def processText (text : List Char) (guilds : List Guild) : Except ErrMsg (List Directive) :=
  match validateText (text.map Char.toUpper) guilds.length with
  | some e => .error e
  | none => .ok (planDirectives (text.map Char.toUpper) (sortGuilds guilds))

/-- The source's `addReaction`: the REST `put` either resolves or rejects;
the body's `try`/`catch` converts that outcome into `true`/`false` and
never lets the rejection escape. -/
def addReaction (response : Except String Unit) : Bool :=
  match response with
  | .ok _ => true
  | .error _ => false

/-- An observable event of the dispatch loop: a reaction-add call (with
the directive it serves and whether the call succeeded) or a timed pause. -/
inductive DispatchEvent where
  | call (d : Directive) (succeeded : Bool)
  | pause (ms : Nat)
  deriving DecidableEq

/-- The event trace of the `processText` dispatch loop over its directive
list: for each directive, one awaited `addReaction` call followed by the
unconditional 350ms `setTimeout` pause.  `net i` is the outcome the
network gives the i-th call; because `addReaction` swallows failures, the
loop body runs identically for failed calls. -/
def dispatchEvents : List Directive → (Nat → Except String Unit) → Nat → List DispatchEvent
  | [], _, _ => []
  | d :: rest, net, i =>
    .call d (addReaction (net i)) :: .pause 350 :: dispatchEvents rest net (i + 1)

/-- A guild summary as returned by the directory service (only the id is
used by the source). -/
structure RawGuild where
  id : String
  deriving DecidableEq

/-- The source's `fetchUserGuilds`: returns the response body, or an empty
list when the request rejected (the `catch` branch). -/
def fetchUserGuilds (response : Except String (List RawGuild)) : List RawGuild :=
  match response with
  | .ok gs => gs
  | .error _ => []

/-- The source's `fetchGuildEmojis`: returns the catalog body, or an empty
list when the request rejected. -/
def fetchGuildEmojis (_guildId : String) (response : Except String (List Emoji)) : List Emoji :=
  match response with
  | .ok es => es
  | .error _ => []

/-- A channel as seen through `ChannelStore.getChannel`: only the
`isPrivate()` flag matters to this code. -/
structure Channel where
  isPrivate : Bool
  deriving DecidableEq

/-- The host stores the permission checks consult: channel lookup by id
and the permission query `PermissionStore.can`. -/
structure Env where
  getChannel : String → Option Channel
  can : Nat → Channel → Bool

/-- The source's `PermissionsBits.ADD_REACTIONS` bit. -/
def ADD_REACTIONS : Nat := 64

/-- The source's `PermissionsBits.USE_EXTERNAL_EMOJIS` bit. -/
def USE_EXTERNAL_EMOJIS : Nat := 262144

/-- The source's `hasPermission`: unresolvable and private channels pass
every permission check unconditionally. -/
def hasPermission (env : Env) (channelId : String) (permission : Nat) : Bool :=
  match env.getChannel channelId with
  | none => true
  | some channel => if channel.isPrivate then true else env.can permission channel

/-- The source's `hasExternalEmojiPerms`. -/
def hasExternalEmojiPerms (env : Env) (channelId : String) : Bool :=
  hasPermission env channelId USE_EXTERNAL_EMOJIS

/-- The source's `hasAddReactionsPerms`. -/
def hasAddReactionsPerms (env : Env) (channelId : String) : Bool :=
  hasPermission env channelId ADD_REACTIONS

/-- Whether `renderMessagePopoverButton` returns a button for a message in
the given channel: the source returns early (no button) exactly when the
reaction-add permission check fails. -/
def renderMessagePopoverButton (env : Env) (channelId : String) : Bool :=
  hasAddReactionsPerms env channelId

/-! Concrete fixtures used by the witness and counterexample theorems. -/

/-- The space identifier at a given registry priority (empty string when
the priority is not in the registry). -/
def guildIdAt (n : Nat) : String :=
  ((GUILD_IDS.find? (fun p => p.1 == n)).map Prod.snd).getD ""

/-- A fixture guild at registry priority `n` whose catalog holds the
emojis `H_` and `I_` with ids tagged by the priority. -/
def hiGuild (n : Nat) : Guild :=
  { id := guildIdAt n,
    emojis := [ { name := "H_", id := "h" ++ toString n },
                { name := "I_", id := "i" ++ toString n } ] }

/-- All six registry spaces, already in registry priority order 1..6,
each holding the emojis `H_` and `I_`. -/
def hiGuilds : List Guild :=
  [hiGuild 1, hiGuild 2, hiGuild 3, hiGuild 4, hiGuild 5, hiGuild 6]

/-- A fixture directive. -/
def dirA : Directive :=
  { char := 'H', guildId := guildIdAt 1, emoji := { name := "H_", id := "h1" } }

/-- A second fixture directive. -/
def dirB : Directive :=
  { char := 'I', guildId := guildIdAt 2, emoji := { name := "I_", id := "i2" } }

/-- A network in which every reaction call succeeds. -/
def netAllOk : Nat → Except String Unit := fun _ => .ok ()

/-- A network in which every reaction call fails. -/
def netAllFail : Nat → Except String Unit := fun _ => .error "network"

/-- A host in which no channel resolves and every permission query is
denied. -/
def envUnresolvable : Env :=
  { getChannel := fun _ => none, can := fun _ _ => false }

/-! Helper lemmas about the character-count table. -/

theorem dedupFirst_append (s : List Char) (c : Char) :
    dedupFirst (s ++ [c]) =
      if c ∈ dedupFirst s then dedupFirst s else dedupFirst s ++ [c] := by
  simp [dedupFirst, List.foldl_append]

theorem mem_dedupFirst (c : Char) (s : List Char) : c ∈ dedupFirst s ↔ c ∈ s := by
  induction s using List.reverseRecOn with
  | nil => simp [dedupFirst]
  | append_singleton s d ih =>
    rw [dedupFirst_append]
    by_cases hd : d ∈ dedupFirst s
    · simp only [if_pos hd, List.mem_append, List.mem_singleton, ih]
      constructor
      · exact fun h => Or.inl h
      · rintro (h | rfl)
        · exact h
        · exact ih.mp hd
    · simp [if_neg hd, ih]

theorem nodup_dedupFirst (s : List Char) : (dedupFirst s).Nodup := by
  induction s using List.reverseRecOn with
  | nil => simp [dedupFirst]
  | append_singleton s d ih =>
    rw [dedupFirst_append]
    by_cases hd : d ∈ dedupFirst s
    · simpa [if_pos hd]
    · simp [if_neg hd, List.nodup_append, ih, hd]

theorem countCharacters_append (s : List Char) (c : Char) :
    countCharacters (s ++ [c]) = bump (countCharacters s) c := by
  simp [countCharacters, List.foldl_append]

theorem bump_any_iff (m : List (Char × Nat)) (c : Char) :
    m.any (fun p => p.1 == c) = true ↔ c ∈ m.map Prod.fst := by
  simp [List.any_eq_true, List.mem_map]

theorem countCharacters_keys (s : List Char) :
    (countCharacters s).map Prod.fst = dedupFirst s := by
  induction s using List.reverseRecOn with
  | nil => simp [countCharacters, dedupFirst]
  | append_singleton s c ih =>
    rw [countCharacters_append, dedupFirst_append, ← ih]
    simp only [bump]
    by_cases hc : (countCharacters s).any (fun p => p.1 == c) = true
    · rw [if_pos hc, if_pos ((bump_any_iff _ _).mp hc)]
      rw [List.map_map]
      apply List.map_congr_left
      intro p _
      by_cases hpc : p.1 = c <;> simp [hpc]
    · rw [if_neg hc, if_neg (fun hmem => hc ((bump_any_iff _ _).mpr hmem))]
      simp

theorem countCharacters_counts (s : List Char) :
    ∀ p ∈ countCharacters s, p.2 = s.count p.1 := by
  induction s using List.reverseRecOn with
  | nil => simp [countCharacters]
  | append_singleton s c ih =>
    rw [countCharacters_append]
    simp only [bump]
    by_cases hc : (countCharacters s).any (fun p => p.1 == c) = true
    · rw [if_pos hc]
      intro p hp
      rcases List.mem_map.mp hp with ⟨q, hq, rfl⟩
      have e := ih q hq
      by_cases hqc : q.1 = c
      · have hb : (q.1 == c) = true := by simpa using hqc
        rw [if_pos hb]
        rw [hqc] at e ⊢
        rw [List.count_append, List.count_singleton]
        simp [e]
      · have hb : ¬(q.1 == c) = true := by simpa using hqc
        rw [if_neg hb]
        rw [List.count_append, List.count_singleton]
        have hne : ¬(c == q.1) = true := by
          intro h
          exact hqc ((eq_of_beq h).symm)
        rw [if_neg hne]
        simpa using e
    · rw [if_neg hc]
      intro p hp
      rcases List.mem_append.mp hp with hp | hp
      · rw [List.count_append, List.count_singleton]
        have hne : ¬(c == p.1) = true := by
          intro h
          have hp1 : p.1 = c := (eq_of_beq h).symm
          apply hc
          apply (bump_any_iff _ _).mpr
          exact List.mem_map.mpr ⟨p, hp, hp1⟩
        rw [if_neg hne]
        simpa using ih p hp
      · have hp1 : p = (c, 1) := by simpa using hp
        subst hp1
        rw [List.count_append, List.count_singleton]
        have hcs : c ∉ s := by
          intro hmem
          apply hc
          apply (bump_any_iff _ _).mpr
          rw [countCharacters_keys, mem_dedupFirst]
          exact hmem
        simp [List.count_eq_zero.mpr hcs]

theorem countCharacters_mem_entry {s : List Char} {c : Char} (h : c ∈ s) :
    (c, s.count c) ∈ countCharacters s := by
  have hk : c ∈ (countCharacters s).map Prod.fst := by
    rw [countCharacters_keys, mem_dedupFirst]
    exact h
  rcases List.mem_map.mp hk with ⟨p, hp, hfst⟩
  have := countCharacters_counts s p hp
  have hpe : p = (c, s.count c) := by
    cases p
    simp_all
  rwa [hpe] at hp

theorem foldl_max_le_iff (l : List Nat) (a m : Nat) :
    l.foldl Nat.max a ≤ m ↔ a ≤ m ∧ ∀ x ∈ l, x ≤ m := by
  induction l generalizing a with
  | nil => simp
  | cons x t ih =>
    rw [List.foldl_cons, ih]
    simp only [List.mem_cons, Nat.max_le]
    constructor
    · rintro ⟨⟨h1, h2⟩, h3⟩
      exact ⟨h1, fun y hy => by rcases hy with rfl | hy; exact h2; exact h3 y hy⟩
    · rintro ⟨h1, h2⟩
      exact ⟨⟨h1, h2 x (Or.inl rfl)⟩, fun y hy => h2 y (Or.inr hy)⟩

theorem maxCount_le_iff (cc : List (Char × Nat)) (b : Nat) :
    maxCount cc ≤ b ↔ ∀ p ∈ cc, p.2 ≤ b := by
  rw [maxCount, foldl_max_le_iff]
  simp only [Nat.zero_le, true_and, List.forall_mem_map]

theorem lt_maxCount_iff (cc : List (Char × Nat)) (b : Nat) :
    b < maxCount cc ↔ ∃ p ∈ cc, b < p.2 := by
  rw [← not_le, maxCount_le_iff]
  push_neg
  rfl

theorem bool_ne_true {b : Bool} (h : b = false) : ¬(b = true) := by
  simp [h]

/-! Helper lemmas about the exceeding-characters report. -/

theorem find?_countCharacters_of_mem {up : List Char} {d : Char} (h : d ∈ up) :
    (countCharacters up).find? (fun p => p.1 == d) = some (d, up.count d) := by
  have hkey : d ∈ (countCharacters up).map Prod.fst := by
    rw [countCharacters_keys, mem_dedupFirst]
    exact h
  rcases List.mem_map.mp hkey with ⟨q, hq, hfst⟩
  have hsome : ((countCharacters up).find? (fun p => p.1 == d)).isSome := by
    rw [List.find?_isSome]
    exact ⟨q, hq, by simp [hfst]⟩
  rcases ho : (countCharacters up).find? (fun p => p.1 == d) with _ | r
  · rw [ho] at hsome
    cases hsome
  · have hr1 : r.1 = d := by simpa using List.find?_some ho
    have hr2 : r.2 = up.count r.1 := countCharacters_counts up r (List.mem_of_find?_eq_some ho)
    obtain ⟨a, b⟩ := r
    simp only at hr1 hr2
    subst hr1
    rw [← hr2]
    exact ho

theorem find?_countCharacters_of_not_mem {up : List Char} {d : Char} (h : d ∉ up) :
    (countCharacters up).find? (fun p => p.1 == d) = none := by
  rw [List.find?_eq_none]
  intro p hp hpd
  have hp1 : p.1 = d := by simpa using hpd
  apply h
  have hm : p.1 ∈ (countCharacters up).map Prod.fst := List.mem_map_of_mem _ hp
  rw [countCharacters_keys, mem_dedupFirst] at hm
  rwa [hp1] at hm

theorem digit_part_eq (up : List Char) (k : Nat) (ds : List Char) :
    ((ds.filterMap (fun d => (countCharacters up).find? (fun p => p.1 == d))).filter
        (fun p => p.2 > k)).map Prod.fst
      = ds.filter (fun d => decide (k < up.count d)) := by
  induction ds with
  | nil => rfl
  | cons d t ih =>
    by_cases hd : d ∈ up
    · simp only [List.filterMap_cons, find?_countCharacters_of_mem hd]
      by_cases hcnt : k < up.count d
      · rw [List.filter_cons_of_pos (by simpa using hcnt), List.map_cons, ih,
          List.filter_cons_of_pos (by simpa using hcnt)]
      · rw [List.filter_cons_of_neg (by simpa using hcnt), ih,
          List.filter_cons_of_neg (by simpa using hcnt)]
    · simp only [List.filterMap_cons, find?_countCharacters_of_not_mem hd]
      have hz : up.count d = 0 := List.count_eq_zero.mpr hd
      rw [ih, List.filter_cons_of_neg (by simp [hz])]

theorem nondigit_part_eq (up : List Char) (k : Nat) :
    ∀ m : List (Char × Nat), (∀ p ∈ m, p.2 = up.count p.1) →
      ((m.filter (fun p => !(digitChars.contains p.1))).filter (fun p => p.2 > k)).map Prod.fst
        = (m.map Prod.fst).filter (fun c => !(digitChars.contains c) && decide (k < up.count c)) := by
  intro m
  induction m with
  | nil => intro _; rfl
  | cons p t ih =>
    intro hm
    have hp2 : p.2 = up.count p.1 := hm p (List.mem_cons_self _ _)
    have iht := ih (fun q hq => hm q (List.mem_cons_of_mem _ hq))
    by_cases hdig : digitChars.contains p.1 = true
    · have hdm : p.1 ∈ digitChars := by simpa using hdig
      rw [List.filter_cons_of_neg (by simp [hdm]), List.map_cons,
        List.filter_cons_of_neg (by simp [hdm]), iht]
    · have hdm : p.1 ∉ digitChars := by simpa using hdig
      by_cases hcnt : k < up.count p.1
      · rw [List.filter_cons_of_pos (by simp [hdm]),
          List.filter_cons_of_pos (by simp [hp2]; omega), List.map_cons, List.map_cons,
          List.filter_cons_of_pos (by simp [hdm, hcnt]), iht]
      · rw [List.filter_cons_of_pos (by simp [hdm]),
          List.filter_cons_of_neg (by simp [hp2]; omega), List.map_cons,
          List.filter_cons_of_neg (by simp [hdm, hcnt]), iht]

theorem charsExceeding_countCharacters (up : List Char) (k : Nat) :
    charsExceeding (countCharacters up) k
      = digitChars.filter (fun d => decide (k < up.count d))
        ++ (dedupFirst up).filter
            (fun c => !(digitChars.contains c) && decide (k < up.count c)) := by
  unfold charsExceeding entriesOrder
  rw [List.filter_append, List.map_append]
  refine congrArg₂ _ ?_ ?_
  · exact digit_part_eq up k digitChars
  · rw [nondigit_part_eq up k (countCharacters up) (countCharacters_counts up),
      countCharacters_keys]

theorem mem_charsExceeding {up : List Char} {k : Nat} {c : Char} :
    c ∈ charsExceeding (countCharacters up) k ↔ c ∈ up ∧ k < up.count c := by
  rw [charsExceeding_countCharacters, List.mem_append, List.mem_filter, List.mem_filter]
  constructor
  · rintro (⟨hd, hcnt⟩ | ⟨hd, hcnt⟩)
    · have hc : k < up.count c := by simpa using hcnt
      exact ⟨List.count_pos_iff.mp (by omega), hc⟩
    · have hc : k < up.count c := by
        simp only [Bool.and_eq_true, decide_eq_true_eq] at hcnt
        exact hcnt.2
      exact ⟨(mem_dedupFirst c up).mp hd, hc⟩
  · rintro ⟨hmem, hcnt⟩
    by_cases hdig : digitChars.contains c = true
    · exact Or.inl ⟨by simpa using hdig, by simpa using hcnt⟩
    · have hdm : c ∉ digitChars := by simpa using hdig
      exact Or.inr ⟨(mem_dedupFirst c up).mpr hmem, by simp [hdm, hcnt]⟩

theorem nodup_charsExceeding (up : List Char) (k : Nat) :
    (charsExceeding (countCharacters up) k).Nodup := by
  rw [charsExceeding_countCharacters, List.nodup_append]
  refine ⟨List.Nodup.filter _ (by decide), List.Nodup.filter _ (nodup_dedupFirst up), ?_⟩
  intro c hc1 hc2
  have hd1 : c ∈ digitChars := (List.mem_filter.mp hc1).1
  have h2 := (List.mem_filter.mp hc2).2
  simp only [Bool.and_eq_true, Bool.not_eq_true'] at h2
  have hd2 : c ∉ digitChars := by simpa using h2.1
  exact hd2 hd1

theorem nodup_all_eq_singleton {l : List Char} {a : Char} (hnd : l.Nodup)
    (hall : ∀ x ∈ l, x = a) (hne : a ∈ l) : l = [a] := by
  cases l with
  | nil => cases hne
  | cons x t =>
    have hx : x = a := hall x (List.mem_cons_self _ _)
    subst hx
    cases t with
    | nil => rfl
    | cons y u =>
      have hy : y = x := hall y (List.mem_cons_of_mem _ (List.mem_cons_self _ _))
      subst hy
      exact absurd (List.mem_cons_self y u) (List.nodup_cons.mp hnd).1

/-! Helper lemmas about the dispatch trace. -/

/-! Helper lemmas about the dispatch trace. -/

theorem dispatchEvents_length (ds : List Directive) (net : Nat → Except String Unit) (j : Nat) :
    (dispatchEvents ds net j).length = 2 * ds.length := by
  induction ds generalizing j with
  | nil => simp [dispatchEvents]
  | cons d rest ih =>
    simp [dispatchEvents, ih]
    omega

theorem dispatchEvents_getElem (ds : List Directive) (net : Nat → Except String Unit)
    (j i : Nat) (h : i < ds.length) :
    (dispatchEvents ds net j)[2 * i]? = some (.call ds[i] (addReaction (net (j + i)))) ∧
      (dispatchEvents ds net j)[2 * i + 1]? = some (.pause 350) := by
  induction ds generalizing j i with
  | nil => simp at h
  | cons d rest ih =>
    cases i with
    | zero => simp [dispatchEvents]
    | succ i' =>
      have h' : i' < rest.length := by simpa using h
      have hrec := ih (j + 1) i' h'
      have e1 : 2 * (i' + 1) = (2 * i' + 1) + 1 := by omega
      have e3 : j + (i' + 1) = (j + 1) + i' := by omega
      rw [e1, e3]
      simpa [dispatchEvents, List.getElem?_cons_succ, List.getElem_cons_succ] using hrec

/-! Helper lemmas about the planning loop. -/

theorem planSteps_map_char (text : List Char) (usage : Char → Nat) (gs : List Guild) :
    (planSteps text usage gs).map Step.char = text := by
  induction text generalizing usage with
  | nil => simp [planSteps]
  | cons d t ih => simp [planSteps, ih]

theorem planSteps_filter_guildIndex (text : List Char) (usage : Char → Nat) (gs : List Guild)
    (c : Char) :
    ((planSteps text usage gs).filter (fun s => s.char == c)).map Step.guildIndex
      = (List.range (text.count c)).map (fun i => min (usage c + i) (gs.length - 1)) := by
  induction text generalizing usage with
  | nil => simp [planSteps]
  | cons d t ih =>
    by_cases hdc : d = c
    · subst hdc
      rw [planSteps, List.filter_cons_of_pos (by simp), List.map_cons,
        ih (fun e => if e = d then usage d + 1 else usage e), List.count_cons]
      rw [if_pos (by simp : (d == d) = true)]
      rw [List.range_succ_eq_map, List.map_cons, List.map_map]
      refine congrArg₂ _ (by simp) ?_
      apply List.map_congr_left
      intro i _
      simp only [Function.comp_apply]
      rw [if_pos trivial]
      omega
    · rw [planSteps, List.filter_cons_of_neg (by simp [hdc]),
        ih (fun e => if e = d then usage d + 1 else usage e), List.count_cons]
      have hne : ¬(d == c) = true := by simp [hdc]
      rw [if_neg hne]
      apply List.map_congr_left
      intro i _
      have : (if c = d then usage d + 1 else usage c) = usage c :=
        if_neg (fun h => hdc h.symm)
      rw [this]

theorem planSteps_guildIndex_congr (text : List Char) (usage : Char → Nat)
    (gs gs' : List Guild) (hlen : gs'.length = gs.length) :
    (planSteps text usage gs').map Step.guildIndex
      = (planSteps text usage gs).map Step.guildIndex := by
  induction text generalizing usage with
  | nil => simp [planSteps]
  | cons d t ih => simp [planSteps, hlen, ih]

/-! Claim theorems: C1, C2, C8, C9. -/

/-- C1: the claim predicts that for input "HI" with all six registry
spaces available in priority order, the planner emits H to space 1 and I
to space 2.  The code keeps a separate usage counter per character, so
both first occurrences target the top-priority space: the second directive
goes to space 1 (id `guildIdAt 1`), not space 2, refuting the claim. -/
theorem processText_hi_spec_example_false :
    processText ['H', 'I'] hiGuilds =
      .ok [{ char := 'H', guildId := guildIdAt 1, emoji := { name := "H_", id := "h1" } },
           { char := 'I', guildId := guildIdAt 1, emoji := { name := "I_", id := "i1" } }] ∧
      guildIdAt 1 ≠ guildIdAt 2 :=
  ⟨rfl, by decide⟩

/-- C1 (amended): for input "HI" with all six registry spaces available in
priority order and the emojis `H_`, `I_` present, the run produces exactly
two directives, H to space 1 with `H_` and I likewise to space 1 with
`I_`, because each character's usage counter starts at zero
independently. -/
theorem processText_hi_directives :
    processText ['H', 'I'] hiGuilds =
      .ok [{ char := 'H', guildId := guildIdAt 1, emoji := { name := "H_", id := "h1" } },
           { char := 'I', guildId := guildIdAt 1, emoji := { name := "I_", id := "i1" } }] :=
  rfl

/-- C2: the claim predicts n-1 intervening pauses, with no pause after the
final call.  For a single successful call the trace already contains a
350ms pause after that (final) call, so the number of pauses is 1, not
n - 1 = 0, refuting the claim. -/
theorem dispatchEvents_pause_after_final :
    dispatchEvents [dirA] netAllOk 0 = [.call dirA true, .pause 350] ∧
      ((dispatchEvents [dirA] netAllOk 0).countP
        (fun e => match e with | .pause _ => true | _ => false)) = 1 :=
  ⟨rfl, rfl⟩

/-- C2 (amended): a directive list of length n produces n sequential
reaction-add calls and n 350ms pauses, one pause after every call
including the final one and regardless of whether the call succeeded
(`addReaction` swallows failures, so the loop body is identical for failed
calls). -/
theorem dispatchEvents_trace_shape (ds : List Directive) (net : Nat → Except String Unit) :
    (dispatchEvents ds net 0).length = 2 * ds.length ∧
      ∀ i, (h : i < ds.length) →
        (dispatchEvents ds net 0)[2 * i]? = some (.call ds[i] (addReaction (net i))) ∧
          (dispatchEvents ds net 0)[2 * i + 1]? = some (.pause 350) := by
  refine ⟨dispatchEvents_length ds net 0, fun i h => ?_⟩
  simpa using dispatchEvents_getElem ds net 0 i h

/-- C2 (witness): the amended trace shape evaluated on a two-directive
list whose first call fails: four events, and the pause slots after both
calls are present. -/
theorem dispatchEvents_trace_shape_witness :
    (dispatchEvents [dirA, dirB] netAllFail 0).length = 4 ∧
      (dispatchEvents [dirA, dirB] netAllFail 0)[1]? = some (.pause 350) ∧
      (dispatchEvents [dirA, dirB] netAllFail 0)[3]? = some (.pause 350) := by
  have h := dispatchEvents_trace_shape [dirA, dirB] netAllFail
  exact ⟨h.1, (h.2 0 (by decide)).2, (h.2 1 (by decide)).2⟩

/-- C8: a failed reaction call never aborts the batch — the i-th call
event is present in the trace for every i below the directive count,
whatever outcomes the network produced for the earlier calls — and a
rejected membership fetch, catalog fetch or reaction call degrades to an
empty list respectively a `false` return instead of propagating. -/
theorem network_failure_isolated :
    (∀ (ds : List Directive) (net : Nat → Except String Unit) (i : Nat), (h : i < ds.length) →
        (dispatchEvents ds net 0)[2 * i]? = some (.call ds[i] (addReaction (net i)))) ∧
      (∀ e, addReaction (.error e) = false) ∧
      (∀ e, fetchUserGuilds (.error e) = []) ∧
      (∀ g e, fetchGuildEmojis g (.error e) = []) := by
  refine ⟨fun ds net i h => ?_, fun e => rfl, fun e => rfl, fun g e => rfl⟩
  simpa using (dispatchEvents_getElem ds net 0 i h).1

/-- C8 (witness): with every network call failing, the second directive's
call is still dispatched (recorded as a failed call), and each fetch
degrades to its empty result. -/
theorem network_failure_isolated_witness :
    (dispatchEvents [dirA, dirB] netAllFail 0)[2]? = some (.call dirB false) ∧
      addReaction (.error "boom") = false ∧
      fetchUserGuilds (.error "boom") = [] ∧
      fetchGuildEmojis "g" (.error "boom") = [] := by
  have h := network_failure_isolated
  exact ⟨h.1 [dirA, dirB] netAllFail 1 (by decide), h.2.1 "boom", h.2.2.1 "boom", h.2.2.2 "g" "boom"⟩

/-- C9: for a channel id the store cannot resolve, or one that resolves to
a private channel, `hasPermission` grants every permission bit, so both
permission gates pass and the popover button is rendered there
unconditionally. -/
theorem hasPermission_private_channels (env : Env) (channelId : String)
    (h : env.getChannel channelId = none ∨
      ∃ ch, env.getChannel channelId = some ch ∧ ch.isPrivate = true) :
    (∀ p, hasPermission env channelId p = true) ∧
      hasAddReactionsPerms env channelId = true ∧
      hasExternalEmojiPerms env channelId = true ∧
      renderMessagePopoverButton env channelId = true := by
  have hall : ∀ p, hasPermission env channelId p = true := by
    intro p
    rcases h with h | ⟨ch, hch, hpriv⟩
    · simp [hasPermission, h]
    · simp [hasPermission, hch, hpriv]
  exact ⟨hall, hall ADD_REACTIONS, hall USE_EXTERNAL_EMOJIS, hall ADD_REACTIONS⟩

/-- C9 (witness): in a host in which no channel resolves and every
permission query is denied, the gates still pass and the button is shown. -/
theorem hasPermission_private_channels_witness :
    hasPermission envUnresolvable "c" 0 = true ∧
      renderMessagePopoverButton envUnresolvable "c" = true := by
  have h := hasPermission_private_channels envUnresolvable "c" (Or.inl rfl)
  exact ⟨h.1 0, h.2.2.2⟩

/-- C4: `validateText` applies its checks in the fixed order
empty/whitespace-only, length, invalid character, repeat ceiling,
repeat-versus-guild-count, returning the error of the first failing check
and `none` when all pass; in particular 21 repetitions of 'A' yield the
length error for every guild count. -/
theorem validateText_first_failure_order (input : List Char) (k : Nat) :
    (input.all Char.isWhitespace = true → validateText input k = some .emptyText) ∧
      (input.all Char.isWhitespace = false → 20 < input.length →
        validateText input k = some .tooManyCharsTotal) ∧
      (input.all Char.isWhitespace = false → input.length ≤ 20 →
        input.any (fun c => !(EMOJI_TEXT_MAPPING c.toUpper).isSome && c.toUpper != ' ') = true →
        validateText input k = some .invalidChar) ∧
      (input.all Char.isWhitespace = false → input.length ≤ 20 →
        input.any (fun c => !(EMOJI_TEXT_MAPPING c.toUpper).isSome && c.toUpper != ' ') = false →
        6 < maxCount (countCharacters (input.map Char.toUpper)) →
        validateText input k = some .tooManyChars) ∧
      (input.all Char.isWhitespace = false → input.length ≤ 20 →
        input.any (fun c => !(EMOJI_TEXT_MAPPING c.toUpper).isSome && c.toUpper != ' ') = false →
        maxCount (countCharacters (input.map Char.toUpper)) ≤ 6 →
        k < maxCount (countCharacters (input.map Char.toUpper)) →
        (∃ ch, validateText input k = some (.singleCharLimit ch)) ∨
          (∃ chs, validateText input k = some (.notEnoughGuilds chs))) ∧
      (input.all Char.isWhitespace = false → input.length ≤ 20 →
        input.any (fun c => !(EMOJI_TEXT_MAPPING c.toUpper).isSome && c.toUpper != ' ') = false →
        maxCount (countCharacters (input.map Char.toUpper)) ≤ 6 →
        maxCount (countCharacters (input.map Char.toUpper)) ≤ k →
        validateText input k = none) ∧
      validateText (List.replicate 21 'A') k = some .tooManyCharsTotal := by
  refine ⟨?_, ?_, ?_, ?_, ?_, ?_, ?_⟩
  · intro h1
    unfold validateText
    rw [if_pos h1]
  · intro h1 h2
    unfold validateText
    rw [if_neg (bool_ne_true h1), if_pos h2]
  · intro h1 h2 h3
    unfold validateText
    rw [if_neg (bool_ne_true h1), if_neg (Nat.not_lt.mpr h2), if_pos h3]
  · intro h1 h2 h3 h4
    unfold validateText
    rw [if_neg (bool_ne_true h1), if_neg (Nat.not_lt.mpr h2), if_neg (bool_ne_true h3),
      if_pos h4]
  · intro h1 h2 h3 h4 h5
    unfold validateText
    rw [if_neg (bool_ne_true h1), if_neg (Nat.not_lt.mpr h2), if_neg (bool_ne_true h3),
      if_neg (Nat.not_lt.mpr h4), if_pos h5]
    rcases hl : charsExceeding (countCharacters (input.map Char.toUpper)) k
      with _ | ⟨c, _ | ⟨c2, rest⟩⟩
    · exact Or.inr ⟨joinComma [], rfl⟩
    · exact Or.inl ⟨String.mk [c], rfl⟩
    · exact Or.inr ⟨joinComma (c :: c2 :: rest), rfl⟩
  · intro h1 h2 h3 h4 h5
    unfold validateText
    rw [if_neg (bool_ne_true h1), if_neg (Nat.not_lt.mpr h2), if_neg (bool_ne_true h3),
      if_neg (Nat.not_lt.mpr h4), if_neg (Nat.not_lt.mpr h5)]
  · have hall : (List.replicate 21 'A').all Char.isWhitespace = false := by decide
    have hlen : 20 < (List.replicate 21 'A').length := by decide
    unfold validateText
    rw [if_neg (bool_ne_true hall), if_pos hlen]

/-- C4 (witness): a text that passes every check validates to `none`. -/
theorem validateText_first_failure_order_witness :
    validateText ['A', 'B'] 2 = none := by
  have h := validateText_first_failure_order ['A', 'B'] 2
  exact h.2.2.2.2.2.1 (by decide) (by decide) (by decide) (by decide) (by decide)

/-- C6: the claim quantifies over every text in which some character
occurs more than 6 times, but the repeat ceiling is only the fourth check:
21 repetitions of 'A' (a character occurring more than 6 times) yield the
length error, not `tooManyChars`, refuting the claim as stated. -/
theorem validateText_long_repeat_too_long :
    validateText (List.replicate 21 'A') 6 = some .tooManyCharsTotal ∧
      6 < ((List.replicate 21 'A').map Char.toUpper).count 'A' ∧
      some ErrMsg.tooManyCharsTotal ≠ some ErrMsg.tooManyChars := by
  decide

/-- C6 (amended): for every text that passes the earlier checks (not
whitespace-only, at most 20 characters, only permitted characters) in
which some character occurs more than 6 times after uppercasing,
`validateText` returns `tooManyChars` regardless of the guild count — 6 is
a hard ceiling independent of `availableSpaceCount`. -/
theorem validateText_repeat_ceiling (input : List Char) (k : Nat)
    (h1 : input.all Char.isWhitespace = false)
    (h2 : input.length ≤ 20)
    (h3 : input.any (fun c => !(EMOJI_TEXT_MAPPING c.toUpper).isSome && c.toUpper != ' ') = false)
    (h4 : ∃ c, 6 < (input.map Char.toUpper).count c) :
    validateText input k = some .tooManyChars := by
  obtain ⟨c, hc⟩ := h4
  have hmem : c ∈ input.map Char.toUpper := List.count_pos_iff.mp (by omega)
  have hmc : 6 < maxCount (countCharacters (input.map Char.toUpper)) :=
    (lt_maxCount_iff _ _).mpr ⟨_, countCharacters_mem_entry hmem, hc⟩
  unfold validateText
  rw [if_neg (bool_ne_true h1), if_neg (Nat.not_lt.mpr h2), if_neg (bool_ne_true h3),
    if_pos hmc]

/-- C6 (witness): seven repetitions of 'A' trip the ceiling even with 100
guilds available. -/
theorem validateText_repeat_ceiling_witness :
    validateText (List.replicate 7 'A') 100 = some .tooManyChars := by
  apply validateText_repeat_ceiling
  · decide
  · decide
  · decide
  · exact ⟨'A', by decide⟩

/-- C3: the claim quantifies over every text of permitted characters with
small enough repeat counts, but a whitespace-only text satisfies all those
conditions (space is a permitted character with its own emoji) and still
fails validation with `emptyText`, refuting the claim as stated. -/
theorem validateText_whitespace_not_valid :
    validateText [' ', ' ', ' '] 6 = some .emptyText ∧
      [' ', ' ', ' '].length ≤ 20 ∧
      (∀ c ∈ [' ', ' ', ' '], (EMOJI_TEXT_MAPPING c.toUpper).isSome = true) ∧
      (([' ', ' ', ' '].map Char.toUpper).count ' ' ≤ min 6 6) := by
  decide

/-- C3 (amended): for every text of at most 20 characters that contains at
least one non-whitespace character, uses only permitted characters
(case-insensitively), and in which every distinct character occurs at most
min(6, availableSpaceCount) times, `validateText` returns no error. -/
theorem validateText_valid_of_bounds (input : List Char) (k : Nat)
    (h0 : ∃ c ∈ input, c.isWhitespace = false)
    (h1 : input.length ≤ 20)
    (h2 : ∀ c ∈ input, (EMOJI_TEXT_MAPPING c.toUpper).isSome = true ∨ c.toUpper = ' ')
    (h3 : ∀ c ∈ input.map Char.toUpper, (input.map Char.toUpper).count c ≤ min 6 k) :
    validateText input k = none := by
  have hall : input.all Char.isWhitespace = false := by
    cases h : input.all Char.isWhitespace with
    | false => rfl
    | true =>
      obtain ⟨c, hc, hw⟩ := h0
      have := List.all_eq_true.mp h c hc
      rw [hw] at this
      cases this
  have hany :
      input.any (fun c => !(EMOJI_TEXT_MAPPING c.toUpper).isSome && c.toUpper != ' ') = false := by
    cases h : input.any (fun c => !(EMOJI_TEXT_MAPPING c.toUpper).isSome && c.toUpper != ' ') with
    | false => rfl
    | true =>
      obtain ⟨c, hc, hpred⟩ := List.any_eq_true.mp h
      simp only [Bool.and_eq_true, Bool.not_eq_true', bne_iff_ne, ne_eq] at hpred
      rcases h2 c hc with hsome | hsp
      · rw [hpred.1] at hsome
        cases hsome
      · exact absurd hsp hpred.2
  have hbound : ∀ p ∈ countCharacters (input.map Char.toUpper), p.2 ≤ min 6 k := by
    intro p hp
    have hkey : p.1 ∈ input.map Char.toUpper := by
      have hm : p.1 ∈ (countCharacters (input.map Char.toUpper)).map Prod.fst :=
        List.mem_map_of_mem _ hp
      rwa [countCharacters_keys, mem_dedupFirst] at hm
    rw [countCharacters_counts _ p hp]
    exact h3 p.1 hkey
  have hmc6 : maxCount (countCharacters (input.map Char.toUpper)) ≤ 6 :=
    (maxCount_le_iff _ _).mpr (fun p hp => le_trans (hbound p hp) (min_le_left _ _))
  have hmck : maxCount (countCharacters (input.map Char.toUpper)) ≤ k :=
    (maxCount_le_iff _ _).mpr (fun p hp => le_trans (hbound p hp) (min_le_right _ _))
  unfold validateText
  rw [if_neg (bool_ne_true hall), if_neg (Nat.not_lt.mpr h1), if_neg (bool_ne_true hany),
    if_neg (Nat.not_lt.mpr hmc6), if_neg (Nat.not_lt.mpr hmck)]

/-- C3 (witness): "HI" with two available guilds validates cleanly. -/
theorem validateText_valid_of_bounds_witness :
    validateText ['H', 'I'] 2 = none := by
  apply validateText_valid_of_bounds
  · exact ⟨'H', by decide, by decide⟩
  · decide
  · decide
  · decide

/-- C7: for every text, non-empty priority-ordered guild list of length k
and character c, the i-th occurrence of c (0-based) targets the space at
index min(i, k-1), and the directives actually emitted for c use spaces in
non-decreasing priority order in which an index repeats only once it has
reached the last available space (clamping). -/
theorem planSteps_priority_round_robin (text : List Char) (gs : List Guild) (c : Char)
    (_hg : gs ≠ []) :
    (((planSteps text (fun _ => 0) gs).filter (fun s => s.char == c)).map Step.guildIndex
        = (List.range (text.count c)).map (fun i => min i (gs.length - 1))) ∧
      List.Pairwise (fun a b => a ≤ b ∧ (a = b → a = gs.length - 1))
        (((planSteps text (fun _ => 0) gs).filter
            (fun s => s.char == c && s.reaction.isSome)).map Step.guildIndex) := by
  have hmain := planSteps_filter_guildIndex text (fun _ => 0) gs c
  simp only [Nat.zero_add] at hmain
  refine ⟨hmain, ?_⟩
  have hpred : (fun s : Step => s.char == c && s.reaction.isSome)
      = (fun s : Step => s.reaction.isSome && (s.char == c)) := by
    funext s
    exact Bool.and_comm _ _
  have hsub : List.Sublist
      ((planSteps text (fun _ => 0) gs).filter (fun s => s.char == c && s.reaction.isSome))
      ((planSteps text (fun _ => 0) gs).filter (fun s => s.char == c)) := by
    rw [hpred, ← List.filter_filter]
    exact List.filter_sublist _
  have hs2 := List.Sublist.map Step.guildIndex hsub
  rw [hmain] at hs2
  refine List.Pairwise.sublist hs2 ?_
  rw [List.pairwise_map]
  refine List.Pairwise.imp ?_ (List.pairwise_lt_range _)
  intro a b hab
  omega

/-- C7 (witness): for "AA" over the six fixture guilds, the two
occurrences of 'A' target spaces 1 then 2 (indices 0 and 1). -/
theorem planSteps_priority_round_robin_witness :
    ((planSteps ['A', 'A'] (fun _ => 0) hiGuilds).filter
      (fun s => s.char == 'A')).map Step.guildIndex = [0, 1] := by
  have h := planSteps_priority_round_robin ['A', 'A'] hiGuilds 'A' (by decide)
  rw [h.1]
  decide

/-- C10: the usage counter advances on every occurrence of a character,
reaction or not: the trace handles exactly the characters of the text in
order, the i-th occurrence of c always gets guild index min(i, k-1), and
the chosen indices depend only on the length of the guild list, not on the
emoji catalogs (so a missed emoji lookup never changes later indices). -/
theorem planSteps_usage_every_occurrence (text : List Char) (gs : List Guild) (c : Char)
    (_hg : gs ≠ []) :
    ((planSteps text (fun _ => 0) gs).map Step.char = text) ∧
      (∀ i g, (((planSteps text (fun _ => 0) gs).filter
          (fun s => s.char == c)).map Step.guildIndex)[i]? = some g →
        g = min i (gs.length - 1)) ∧
      (∀ gs' : List Guild, gs'.length = gs.length →
        (planSteps text (fun _ => 0) gs').map Step.guildIndex
          = (planSteps text (fun _ => 0) gs).map Step.guildIndex) := by
  refine ⟨planSteps_map_char _ _ _, ?_, ?_⟩
  · intro i g hig
    rw [planSteps_filter_guildIndex, List.getElem?_map] at hig
    have hlt : i < text.count c := by
      by_contra hni
      rw [List.getElem?_eq_none (by simpa using Nat.le_of_not_lt hni)] at hig
      cases hig
    rw [List.getElem?_range hlt] at hig
    simp only [Option.map_some'] at hig
    have := Option.some.inj hig
    omega
  · intro gs' hlen
    exact planSteps_guildIndex_congr text (fun _ => 0) gs gs' hlen

/-- C10 (witness): for "AHA" over the six fixture guilds, the trace covers
the three characters in order and the second occurrence of 'A' (0-based
index 1) gets guild index 1 = min 1 (k-1). -/
theorem planSteps_usage_every_occurrence_witness :
    (planSteps ['A', 'H', 'A'] (fun _ => 0) hiGuilds).map Step.char = ['A', 'H', 'A'] ∧
      (1 : Nat) = min 1 (hiGuilds.length - 1) := by
  have h := planSteps_usage_every_occurrence ['A', 'H', 'A'] hiGuilds 'A' (by decide)
  exact ⟨h.1, h.2.1 1 1 (by decide)⟩

/-- C5: the claim says the exceeding characters are listed in the order
each was first encountered in the input, but the count table is a JS
object whose `Object.entries` enumeration puts array-index-like keys (the
digits) first: for "AA11" with one available space, 'A' is encountered
first yet the message lists "1, A", not "A, 1", refuting the claim. -/
theorem validateText_digit_key_order :
    validateText ['A', 'A', '1', '1'] 1 = some (.notEnoughGuilds "1, A") ∧
      dedupFirst (['A', 'A', '1', '1'].map Char.toUpper) = ['A', '1'] ∧
      ("1, A" : String) ≠ "A, 1" := by
  decide

/-- C5 (amended): for every input that reaches validation rule 5, if
exactly one distinct character's count exceeds the guild count the
validator emits `singleCharLimit` naming that character; if more than one
exceeds it, it emits `notEnoughGuilds` listing the exceeding characters
comma-joined in `Object.entries` order: digit characters first in
ascending order, then the remaining characters in the order each was first
encountered in the input. -/
theorem validateText_exceeding_report (input : List Char) (k : Nat)
    (h1 : input.all Char.isWhitespace = false)
    (h2 : input.length ≤ 20)
    (h3 : input.any (fun c => !(EMOJI_TEXT_MAPPING c.toUpper).isSome && c.toUpper != ' ') = false)
    (h4 : maxCount (countCharacters (input.map Char.toUpper)) ≤ 6)
    (h5 : k < maxCount (countCharacters (input.map Char.toUpper))) :
    (∀ c₀, c₀ ∈ input.map Char.toUpper ∧ k < (input.map Char.toUpper).count c₀ →
      (∀ c ∈ input.map Char.toUpper, k < (input.map Char.toUpper).count c → c = c₀) →
      validateText input k = some (.singleCharLimit (String.mk [c₀]))) ∧
      ((∃ c₁ c₂, c₁ ≠ c₂ ∧ c₁ ∈ input.map Char.toUpper ∧ c₂ ∈ input.map Char.toUpper ∧
          k < (input.map Char.toUpper).count c₁ ∧ k < (input.map Char.toUpper).count c₂) →
        validateText input k = some (.notEnoughGuilds (joinComma
          (digitChars.filter (fun d => decide (k < (input.map Char.toUpper).count d))
            ++ (dedupFirst (input.map Char.toUpper)).filter
                (fun c => !(digitChars.contains c)
                  && decide (k < (input.map Char.toUpper).count c)))))) := by
  have hred : validateText input k
      = (match charsExceeding (countCharacters (input.map Char.toUpper)) k with
        | [c] => some (ErrMsg.singleCharLimit (String.mk [c]))
        | cs => some (ErrMsg.notEnoughGuilds (joinComma cs))) := by
    unfold validateText
    rw [if_neg (bool_ne_true h1), if_neg (Nat.not_lt.mpr h2), if_neg (bool_ne_true h3),
      if_neg (Nat.not_lt.mpr h4), if_pos h5]
  constructor
  · intro c₀ hx huniq
    have hin : c₀ ∈ charsExceeding (countCharacters (input.map Char.toUpper)) k :=
      mem_charsExceeding.mpr hx
    have hall : ∀ x ∈ charsExceeding (countCharacters (input.map Char.toUpper)) k, x = c₀ :=
      fun x hxm =>
        huniq x (mem_charsExceeding.mp hxm).1 (mem_charsExceeding.mp hxm).2
    have hsing := nodup_all_eq_singleton (nodup_charsExceeding _ _) hall hin
    rw [hred, hsing]
  · rintro ⟨c₁, c₂, hne, h1m, h2m, h1c, h2c⟩
    have hin1 : c₁ ∈ charsExceeding (countCharacters (input.map Char.toUpper)) k :=
      mem_charsExceeding.mpr ⟨h1m, h1c⟩
    have hin2 : c₂ ∈ charsExceeding (countCharacters (input.map Char.toUpper)) k :=
      mem_charsExceeding.mpr ⟨h2m, h2c⟩
    rw [hred]
    rcases hl : charsExceeding (countCharacters (input.map Char.toUpper)) k
      with _ | ⟨x, _ | ⟨y, rest⟩⟩
    · rw [hl] at hin1
      cases hin1
    · rw [hl] at hin1 hin2
      have e1 : c₁ = x := by simpa using hin1
      have e2 : c₂ = x := by simpa using hin2
      exact absurd (e1.trans e2.symm) hne
    · rw [← charsExceeding_countCharacters (input.map Char.toUpper) k, hl]

/-- C5 (witness): with two available guilds, "AAA" reports the single
exceeding character 'A' and "AAABBB" reports "A, B". -/
theorem validateText_exceeding_report_witness :
    validateText ['A', 'A', 'A'] 2 = some (.singleCharLimit "A") ∧
      validateText ['A', 'A', 'A', 'B', 'B', 'B'] 2 = some (.notEnoughGuilds "A, B") := by
  constructor
  · exact (validateText_exceeding_report ['A', 'A', 'A'] 2 (by decide) (by decide) (by decide)
      (by decide) (by decide)).1 'A' ⟨by decide, by decide⟩ (by decide)
  · exact (validateText_exceeding_report ['A', 'A', 'A', 'B', 'B', 'B'] 2 (by decide) (by decide)
      (by decide) (by decide) (by decide)).2
        ⟨'A', 'B', by decide, by decide, by decide, by decide, by decide⟩

end TextToEmojis
